import Mathlib

/-!
# go-serverless-yt: the email validator and the user record service

A shallow embedding of `pkg/validators/is_email_valid.go` and `pkg/user/user.go`.

* Go strings are Lean strings; `len` is the UTF-8 byte length and the regular
  expression engine reads a string rune by rune (`String.data`).
* `regexp.MustCompile` of the anchored pattern is a regular-expression tree, and
  `MatchString` is a Brzozowski-derivative matcher on that tree.
* The DynamoDB client is an interface in Go; here it is a record of state-passing
  operations (`DynamoDBAPI`).  `mapClient` is the client the specification has in
  mind: a table that maps an email to one item, with a log of the calls it served
  and a switch per operation that makes the call fail.
* `json.Unmarshal` is a parameter of the handlers that decode a request body.
-/

/-! ## Definitions -/

namespace validators

/-- Regular expressions over runes, with character classes as predicates. -/
inductive Regex where
  | nothing : Regex
  | empty : Regex
  | cls (p : Char → Bool) : Regex
  | cat (a b : Regex) : Regex
  | alt (a b : Regex) : Regex
  | star (a : Regex) : Regex

namespace Regex

/-- Whether the expression accepts the empty rune sequence. -/
def nullable : Regex → Bool
  | nothing => false
  | empty => true
  | cls _ => false
  | cat a b => nullable a && nullable b
  | alt a b => nullable a || nullable b
  | star _ => true

/-- Brzozowski derivative: what is left to match once rune `c` has been read. -/
def deriv : Regex → Char → Regex
  | nothing, _ => nothing
  | empty, _ => nothing
  | cls p, c => if p c then empty else nothing
  | cat a b, c =>
    if nullable a then alt (cat (deriv a c) b) (deriv b c) else cat (deriv a c) b
  | alt a b, c => alt (deriv a c) (deriv b c)
  | star a, c => cat (deriv a c) (star a)

/-- Whole-sequence match: derive by every rune, then test for the empty sequence. -/
def matchRunes : Regex → List Char → Bool
  | r, [] => nullable r
  | r, c :: cs => matchRunes (deriv r c) cs

/-- One or more repetitions, the `+` operator. -/
def plus (a : Regex) : Regex := cat a (star a)

/-- Zero or one occurrence, the `?` operator. -/
def opt (a : Regex) : Regex := alt a empty

/-- A single literal rune. -/
def lit (c : Char) : Regex := cls (fun x => x == c)

/-- The bounded repetition `{2,4}` of a class, unfolded the way the Go parser
simplifies it: `xx(x(x)?)?`. -/
def rep24 (p : Char → Bool) : Regex :=
  cat (cls p) (cat (cls p) (opt (cat (cls p) (opt (cls p)))))

/-- Language of a regular expression: the rune sequences it denotes. -/
inductive Matches : Regex → List Char → Prop where
  | empty : Matches .empty []
  | cls {p : Char → Bool} {c : Char} : p c = true → Matches (.cls p) [c]
  | cat {a b : Regex} {x y : List Char} :
      Matches a x → Matches b y → Matches (.cat a b) (x ++ y)
  | altL {a b : Regex} {x : List Char} : Matches a x → Matches (.alt a b) x
  | altR {a b : Regex} {x : List Char} : Matches b x → Matches (.alt a b) x
  | starNil {a : Regex} : Matches (.star a) []
  | starCons {a : Regex} {x y : List Char} :
      Matches a x → Matches (.star a) y → Matches (.star a) (x ++ y)

end Regex

/-- The class `[a-zA-Z]`. -/
def isAlpha (c : Char) : Bool := ('a' ≤ c && c ≤ 'z') || ('A' ≤ c && c ≤ 'Z')

/-- The class `[0-9]`. -/
def isDigit (c : Char) : Bool := '0' ≤ c && c ≤ '9'

/-- The class `[a-zA-Z0-9._%+\-]` of the local part. -/
def isLocalChar (c : Char) : Bool :=
  isAlpha c || isDigit c || c == '.' || c == '_' || c == '%' || c == '+' || c == '-'

/-- The class `[a-zA-Z0-9.\-]` of the domain. -/
def isDomainChar (c : Char) : Bool := isAlpha c || isDigit c || c == '.' || c == '-'

/-- The compiled pattern `^[a-zA-Z0-9._%+\-]+@[a-zA-Z0-9.\-]+\.[a-zA-Z]{2,4}$`: the tree
of what stands between the two anchors. -/
def emailRegex : Regex :=
  .cat (.plus (.cls isLocalChar))
    (.cat (.lit '@')
      (.cat (.plus (.cls isDomainChar))
        (.cat (.lit '.')
          (.rep24 isAlpha))))

/-- `MatchString` of a pattern anchored by `^` and `$` (no multi-line flag, so `$` is the
end of the text): the whole string has to match.  The engine reads runes; a Go string
that is not valid UTF-8 has no counterpart here, and the engine would read its bad bytes
as U+FFFD, which no class of the pattern contains. -/
def MatchString (re : Regex) (s : String) : Bool := re.matchRunes s.data

/-- Go's `len` of a string: its length in bytes. -/
def len (s : String) : Nat := s.utf8ByteSize

/-- The validator of `is_email_valid.go`. -/
def IsEmailValid (email : String) : Bool :=
  if len email < 3 || len email > 254 || !MatchString emailRegex email then
    false
  else
    true

/-- Shape of an address as the specification words it: one or more local-part characters,
an at sign, one or more domain characters, a dot, then two to four letters up to the end. -/
def EmailShape (cs : List Char) : Prop :=
  ∃ loc dom tld : List Char,
    cs = loc ++ '@' :: (dom ++ '.' :: tld) ∧
    loc ≠ [] ∧ (∀ c ∈ loc, isLocalChar c = true) ∧
    dom ≠ [] ∧ (∀ c ∈ dom, isDomainChar c = true) ∧
    2 ≤ tld.length ∧ tld.length ≤ 4 ∧ (∀ c ∈ tld, isAlpha c = true)

/-- The part of a rune sequence after its last dot (all of it when there is no dot). -/
def afterLastDot (cs : List Char) : List Char :=
  (cs.reverse.takeWhile (fun c => c != '.')).reverse

end validators

namespace user

open validators

/-- The error values declared at the top of `user.go`. -/
inductive Error where
  | ErrorMethodNotAllowed
  | ErrorFailedToUnmarshalRecord
  | ErrorFailedToFetchRecord
  | ErrorInvalidEmail
  | ErrorInvalidUserData
  | ErrorCouldNotMarshalItem
  | ErrorCouldNotDeleteItem
  | ErrorCouldNotDynamoPutItem
  | ErrorUserAlreadyExists
  | ErrorUserDoesNotExist
  deriving DecidableEq

/-- The user record. -/
structure User where
  Email : String
  FirstName : String
  LastName : String
  deriving DecidableEq

/-- The scalar DynamoDB attribute values: a string, a number (carried as its text), the
null marker and a boolean.  Binary values, sets, lists and maps are left out. -/
inductive AttributeValue where
  | S (s : String)
  | N (n : String)
  | NULL
  | BOOL (b : Bool)
  deriving DecidableEq

/-- An item, `map[string]*dynamodb.AttributeValue`, as an association list. -/
abbrev Item := List (String × AttributeValue)

structure GetItemInput where
  Key : Item
  TableName : String
  deriving DecidableEq

structure GetItemOutput where
  Item : Item
  deriving DecidableEq

structure PutItemInput where
  Item : Item
  TableName : String
  deriving DecidableEq

structure DeleteItemInput where
  Key : Item
  TableName : String
  deriving DecidableEq

/-- The methods of `dynamodbiface.DynamoDBAPI` the handlers call, as operations on a
client state `σ`.  A result of `none` is a call that returned an error. -/
structure DynamoDBAPI (σ : Type) where
  GetItem : GetItemInput → σ → Option GetItemOutput × σ
  PutItem : PutItemInput → σ → Option Unit × σ
  DeleteItem : DeleteItemInput → σ → Option Unit × σ

/-- The gateway request: the fields the handlers read. -/
structure APIGatewayProxyRequest where
  Body : String
  PathParameters : List (String × String)
  deriving DecidableEq

/-- Indexing a Go map of strings: the zero value when the key is missing. -/
def pathParameter (req : APIGatewayProxyRequest) (name : String) : String :=
  (req.PathParameters.lookup name).getD ""

/-- Encoding of a string field by `dynamodbattribute`: the empty string becomes NULL. -/
def encodeString (s : String) : AttributeValue :=
  if s = "" then .NULL else .S s

/-- The attribute map of a user: one attribute per field, named by its json tag. -/
def userItem (u : User) : Item :=
  [("email", encodeString u.Email),
   ("firstName", encodeString u.FirstName),
   ("lastName", encodeString u.LastName)]

/-- `dynamodbattribute.MarshalMap` of a user.  A struct of three strings has no failing
input; `none` stands for the error the caller checks. -/
def MarshalMap (u : User) : Option Item := some (userItem u)

/-- The fields of `User`, in the order of their declaration. -/
inductive Field where
  | Email
  | FirstName
  | LastName
  deriving DecidableEq

/-- The name a field goes by in an item: its json tag. -/
def Field.name : Field → String
  | .Email => "email"
  | .FirstName => "firstName"
  | .LastName => "lastName"

/-- Assignment of a string to a field of a user. -/
def Field.set (f : Field) (u : User) (s : String) : User :=
  match f with
  | .Email => ⟨s, u.FirstName, u.LastName⟩
  | .FirstName => ⟨u.Email, s, u.LastName⟩
  | .LastName => ⟨u.Email, u.FirstName, s⟩

/-- The fields the decoder knows of a `User`. -/
def userFields : List Field := [.Email, .FirstName, .LastName]

/-- Simple case folding of a rune, as far as it can meet an ASCII letter: the upper-case
ASCII letters fold to lower case, the Kelvin sign U+212A folds to `k` and the long s
U+017F to `s`; no other rune folds to an ASCII letter. -/
def foldRune (c : Char) : Char :=
  if c = Char.ofNat 0x212A then 'k'
  else if c = Char.ofNat 0x17F then 's'
  else c.toLower

/-- `strings.EqualFold` of a field name made of ASCII letters with an attribute name. -/
def equalFoldName (fieldName attr : String) : Bool :=
  fieldName.data.map foldRune == attr.data.map foldRune

/-- The decoder's `fieldByName`: the field whose name is the attribute name, or else the
first field whose name equals it under case folding. -/
def fieldByName (attr : String) : Option Field :=
  match userFields.find? (fun f => f.name == attr) with
  | some f => some f
  | none => userFields.find? (fun f => equalFoldName f.name attr)

/-- Decoding of an attribute value into a string field: a string and the text of a
number are stored, NULL resets the field to its zero value, a boolean is a type error. -/
def decodeString : AttributeValue → Option String
  | .S s => some s
  | .N n => some n
  | .NULL => some ""
  | .BOOL _ => none

/-- Decoding of one attribute of an item into the user: an attribute that names no
field is skipped. -/
def decodeAttribute (u : User) (attr : String) (av : AttributeValue) : Option User :=
  match fieldByName attr with
  | none => some u
  | some f =>
    match decodeString av with
    | none => none
    | some s => some (f.set u s)

/-- `dynamodbattribute.UnmarshalMap` of an item into a fresh user: every attribute that
names a field, exactly or under case folding, is decoded into it, and one that does not
decode makes the call fail.  Go ranges over the attributes in no fixed order; here they
are taken from the last to the first, so that the first binding of a name prevails as it
does in a lookup. -/
def UnmarshalMap (m : Item) : Option User :=
  m.foldr (fun kv acc => acc.bind (fun u => decodeAttribute u kv.1 kv.2)) (some ⟨"", "", ""⟩)

/-- The table of the map client: one item per email. -/
abbrev Table := List (String × Item)

/-- The email a key or an item is filed under. -/
def keyOf (m : Item) : String :=
  match m.lookup "email" with
  | some (.S s) => s
  | _ => ""

/-- Point lookup: the item under the key, or the empty item. -/
def Table.get (t : Table) (k : String) : Item := (t.lookup k).getD []

/-- Upsert: the item replaces whatever was filed under its email. -/
def Table.put (t : Table) (m : Item) : Table :=
  (keyOf m, m) :: t.filter (fun e => e.1 != keyOf m)

/-- Delete by key; nothing happens when the key is absent. -/
def Table.delete (t : Table) (k : String) : Table := t.filter (fun e => e.1 != k)

/-- A call served by the map client. -/
inductive Call where
  | GetItem (input : GetItemInput)
  | PutItem (input : PutItemInput)
  | DeleteItem (input : DeleteItemInput)
  deriving DecidableEq

/-- State of the map client: the table and the calls served so far. -/
structure Store where
  table : Table
  calls : List Call
  deriving DecidableEq

/-- Which operations of the map client fail.  A failing call is logged and leaves the
table as it was. -/
structure Faults where
  GetItem : Bool
  PutItem : Bool
  DeleteItem : Bool
  deriving DecidableEq

/-- A client none of whose calls fails. -/
def noFaults : Faults := ⟨false, false, false⟩

/-- The store as a map from email to item.  The client is bound to one table: the table
name of a request is logged and does not select among tables. -/
def mapClient (f : Faults) : DynamoDBAPI Store where
  GetItem input st :=
    if f.GetItem then (none, ⟨st.table, st.calls ++ [.GetItem input]⟩)
    else (some ⟨st.table.get (keyOf input.Key)⟩, ⟨st.table, st.calls ++ [.GetItem input]⟩)
  PutItem input st :=
    if f.PutItem then (none, ⟨st.table, st.calls ++ [.PutItem input]⟩)
    else (some (), ⟨st.table.put input.Item, st.calls ++ [.PutItem input]⟩)
  DeleteItem input st :=
    if f.DeleteItem then (none, ⟨st.table, st.calls ++ [.DeleteItem input]⟩)
    else (some (), ⟨st.table.delete (keyOf input.Key), st.calls ++ [.DeleteItem input]⟩)

/-- The call log after a point lookup of `email`. -/
def afterGet (st : Store) (email tableName : String) : Store :=
  ⟨st.table, st.calls ++ [.GetItem ⟨[("email", .S email)], tableName⟩]⟩

/-- Whether the existence check of the handlers finds a user under `email`: the lookup
succeeds and the item decodes to a record with a non-empty email. -/
def existsUser (f : Faults) (t : Table) (email : String) : Bool :=
  !f.GetItem &&
    match UnmarshalMap (t.get email) with
    | some cu => decide (0 < len cu.Email)
    | none => false

/-- Handler `FetchUser`: one point lookup, then decoding of the item. -/
def FetchUser {σ : Type} (email tableName : String) (dynaClient : DynamoDBAPI σ) (st : σ) :
    Except Error User × σ :=
  let input : GetItemInput := ⟨[("email", .S email)], tableName⟩
  match dynaClient.GetItem input st with
  | (none, st1) => (.error .ErrorFailedToFetchRecord, st1)
  | (some result, st1) =>
    match UnmarshalMap result.Item with
    | none => (.error .ErrorFailedToFetchRecord, st1)
    | some item => (.ok item, st1)

/-- Handler `CreateUser`.  `unmarshal` is `json.Unmarshal` of the body into a zero-valued
user, `none` when it returns an error. -/
def CreateUser {σ : Type} (unmarshal : String → Option User) (req : APIGatewayProxyRequest)
    (tableName : String) (dynaClient : DynamoDBAPI σ) (st : σ) : Except Error User × σ :=
  match unmarshal req.Body with
  | none => (.error .ErrorInvalidUserData, st)
  | some u =>
    if !IsEmailValid u.Email then (.error .ErrorInvalidEmail, st)
    else
      let fetched := FetchUser u.Email tableName dynaClient st
      let currentUser : Option User := fetched.1.toOption
      if (match currentUser with
          | some cu => decide (len cu.Email > 0)
          | none => false) then
        (.error .ErrorUserAlreadyExists, fetched.2)
      else
        match MarshalMap u with
        | none => (.error .ErrorCouldNotMarshalItem, fetched.2)
        | some av =>
          match dynaClient.PutItem ⟨av, tableName⟩ fetched.2 with
          | (none, st2) => (.error .ErrorCouldNotDynamoPutItem, st2)
          | (some _, st2) => (.ok u, st2)

/-- Handler `UpdateUser`. -/
def UpdateUser {σ : Type} (unmarshal : String → Option User) (req : APIGatewayProxyRequest)
    (tableName : String) (dynaClient : DynamoDBAPI σ) (st : σ) : Except Error User × σ :=
  match unmarshal req.Body with
  | none => (.error .ErrorInvalidUserData, st)
  | some u =>
    let fetched := FetchUser u.Email tableName dynaClient st
    let currentUser : Option User := fetched.1.toOption
    if (match currentUser with
        | none => true
        | some cu => decide (len cu.Email = 0)) then
      (.error .ErrorUserDoesNotExist, fetched.2)
    else
      match MarshalMap u with
      | none => (.error .ErrorCouldNotMarshalItem, fetched.2)
      | some av =>
        match dynaClient.PutItem ⟨av, tableName⟩ fetched.2 with
        | (none, st2) => (.error .ErrorCouldNotDynamoPutItem, st2)
        | (some _, st2) => (.ok u, st2)

/-- Handler `DeleteUser`: `none` is the nil error. -/
def DeleteUser {σ : Type} (req : APIGatewayProxyRequest) (tableName : String)
    (dynaClient : DynamoDBAPI σ) (st : σ) : Option Error × σ :=
  let email := pathParameter req "email"
  let input : DeleteItemInput := ⟨[("email", .S email)], tableName⟩
  match dynaClient.DeleteItem input st with
  | (none, st1) => (some .ErrorCouldNotDeleteItem, st1)
  | (some _, st1) => (none, st1)

/-- A stand-in for `json.Unmarshal` on the request bodies of the worked examples below;
each listed body is mapped to what `encoding/json` decodes it to, and every other body
is treated as malformed. -/
def sampleUnmarshal (body : String) : Option User :=
  if body = "\x7b\"email\":\"a@b.co\",\"firstName\":\"Ann\"\x7d" then some ⟨"a@b.co", "Ann", ""⟩
  else if body = "\x7b\"email\":\"a@b.co\",\"lastName\":\"Lee\"\x7d" then some ⟨"a@b.co", "", "Lee"⟩
  else if body = "\x7b\"email\":\"not-an-email\"\x7d" then some ⟨"not-an-email", "", ""⟩
  else if body = "\x7b\x7d" then some ⟨"", "", ""⟩
  else none

/-- The store invariant: every key is a valid email and files a record with that email. -/
def StoreInv (t : Table) : Prop :=
  ∀ k m, t.lookup k = some m →
    IsEmailValid k = true ∧ ∃ r, UnmarshalMap m = some r ∧ r.Email = k

/-- One handler call that can write: its request and the outcome of the store calls. -/
inductive Op where
  | create (req : APIGatewayProxyRequest) (f : Faults)
  | update (req : APIGatewayProxyRequest) (f : Faults)
  | delete (req : APIGatewayProxyRequest) (f : Faults)

/-- The store after a handler call. -/
def Op.run (unmarshal : String → Option User) (tableName : String) : Op → Store → Store
  | .create req f, st => (CreateUser unmarshal req tableName (mapClient f) st).2
  | .update req f, st => (UpdateUser unmarshal req tableName (mapClient f) st).2
  | .delete req f, st => (DeleteUser req tableName (mapClient f) st).2

/-- Stores reachable from the empty store by handler calls. -/
inductive Reachable (unmarshal : String → Option User) (tableName : String) : Store → Prop where
  | init : Reachable unmarshal tableName ⟨[], []⟩
  | step {st : Store} (op : Op) :
      Reachable unmarshal tableName st → Reachable unmarshal tableName (op.run unmarshal tableName st)

end user

/-! ## The validator -/

namespace validators

namespace Regex

theorem Matches.cat_inv {a b : Regex} {s : List Char} (h : Matches (.cat a b) s) :
    ∃ x y, s = x ++ y ∧ Matches a x ∧ Matches b y := by
  cases h with
  | cat ha hb => exact ⟨_, _, rfl, ha, hb⟩

theorem Matches.alt_inv {a b : Regex} {s : List Char} (h : Matches (.alt a b) s) :
    Matches a s ∨ Matches b s := by
  cases h with
  | altL h => exact Or.inl h
  | altR h => exact Or.inr h

theorem nullable_iff (r : Regex) : nullable r = true ↔ Matches r [] := by
  induction r with
  | nothing => simp only [nullable]; constructor
               · intro h; cases h
               · intro h; cases h
  | empty => simp only [nullable]; exact ⟨fun _ => .empty, fun _ => trivial⟩
  | cls p => simp only [nullable]; constructor
             · intro h; cases h
             · intro h; cases h
  | cat a b iha ihb =>
    simp only [nullable, Bool.and_eq_true, iha, ihb]
    constructor
    · rintro ⟨ha, hb⟩; exact Matches.cat ha hb
    · intro h
      obtain ⟨x, y, hxy, ha, hb⟩ := h.cat_inv
      have hx : x = [] := (List.append_eq_nil.mp hxy.symm).1
      have hy : y = [] := (List.append_eq_nil.mp hxy.symm).2
      subst hx; subst hy; exact ⟨ha, hb⟩
  | alt a b iha ihb =>
    simp only [nullable, Bool.or_eq_true, iha, ihb]
    constructor
    · rintro (h | h)
      · exact .altL h
      · exact .altR h
    · intro h; exact h.alt_inv
  | star a _ => simp only [nullable]; exact ⟨fun _ => .starNil, fun _ => trivial⟩

theorem Matches.star_cons_inv {a : Regex} {r : Regex} {t : List Char} (h : Matches r t) :
    ∀ (c : Char) (s : List Char), r = .star a → t = c :: s →
      ∃ x y, s = x ++ y ∧ Matches a (c :: x) ∧ Matches (.star a) y := by
  induction h with
  | empty => intro c s hr; cases hr
  | cls _ => intro c s hr; cases hr
  | cat _ _ _ _ => intro c s hr; cases hr
  | altL _ _ => intro c s hr; cases hr
  | altR _ _ => intro c s hr; cases hr
  | starNil => intro c s _ ht; cases ht
  | @starCons a1 x y hx hy _ ihy =>
    intro c s hr ht
    cases hr
    cases x with
    | nil => exact ihy c s rfl (by simpa using ht)
    | cons d x1 =>
      simp only [List.cons_append, List.cons.injEq] at ht
      obtain ⟨hd, hs⟩ := ht
      subst hd
      exact ⟨x1, y, hs.symm, hx, hy⟩

theorem deriv_iff (r : Regex) : ∀ (c : Char) (s : List Char),
    Matches (deriv r c) s ↔ Matches r (c :: s) := by
  induction r with
  | nothing => intro c s; simp only [deriv]; constructor
               · intro h; cases h
               · intro h; cases h
  | empty => intro c s; simp only [deriv]; constructor
             · intro h; cases h
             · intro h; cases h
  | cls p =>
    intro c s
    simp only [deriv]
    constructor
    · intro h
      by_cases hp : p c = true
      · rw [if_pos hp] at h
        cases h
        exact .cls hp
      · rw [if_neg hp] at h
        cases h
    · intro h
      cases h with
      | cls hp => rw [if_pos hp]; exact .empty
  | cat a b iha ihb =>
    intro c s
    have key : Matches (.cat a b) (c :: s) ↔
        (Matches (.cat (deriv a c) b) s ∨ (nullable a = true ∧ Matches (deriv b c) s)) := by
      constructor
      · intro h
        obtain ⟨x, y, hxy, ha, hb⟩ := h.cat_inv
        cases x with
        | nil =>
          simp only [List.nil_append] at hxy
          subst hxy
          exact Or.inr ⟨(nullable_iff a).mpr ha, (ihb c s).mpr hb⟩
        | cons d x1 =>
          simp only [List.cons_append, List.cons.injEq] at hxy
          obtain ⟨hd, hs⟩ := hxy
          subst hd; subst hs
          exact Or.inl (.cat ((iha c x1).mpr ha) hb)
      · rintro (h | ⟨hn, h⟩)
        · obtain ⟨x, y, hxy, ha, hb⟩ := h.cat_inv
          subst hxy
          exact Matches.cat ((iha c x).mp ha) hb
        · exact Matches.cat (x := []) ((nullable_iff a).mp hn) ((ihb c s).mp h)
    rw [key]
    simp only [deriv]
    by_cases hn : nullable a = true
    · rw [if_pos hn]
      constructor
      · intro h
        rcases h.alt_inv with h | h
        · exact Or.inl h
        · exact Or.inr ⟨hn, h⟩
      · rintro (h | ⟨_, h⟩)
        · exact .altL h
        · exact .altR h
    · rw [if_neg hn]
      constructor
      · intro h; exact Or.inl h
      · rintro (h | ⟨hn1, _⟩)
        · exact h
        · exact absurd hn1 hn
  | alt a b iha ihb =>
    intro c s
    simp only [deriv]
    constructor
    · intro h
      rcases h.alt_inv with h | h
      · exact .altL ((iha c s).mp h)
      · exact .altR ((ihb c s).mp h)
    · intro h
      rcases h.alt_inv with h | h
      · exact .altL ((iha c s).mpr h)
      · exact .altR ((ihb c s).mpr h)
  | star a iha =>
    intro c s
    simp only [deriv]
    constructor
    · intro h
      obtain ⟨x, y, hxy, ha, hb⟩ := h.cat_inv
      subst hxy
      exact Matches.starCons (x := c :: x) ((iha c x).mp ha) hb
    · intro h
      obtain ⟨x, y, hxy, ha, hb⟩ := Matches.star_cons_inv h c s rfl rfl
      subst hxy
      exact Matches.cat ((iha c x).mpr ha) hb

theorem matchRunes_iff : ∀ (s : List Char) (r : Regex), matchRunes r s = true ↔ Matches r s
  | [], r => by simp only [matchRunes]; exact nullable_iff r
  | c :: cs, r => by
    simp only [matchRunes]
    rw [matchRunes_iff cs (deriv r c)]
    exact deriv_iff r c cs

end Regex

namespace Regex

theorem cls_iff (p : Char → Bool) (x : List Char) :
    Matches (.cls p) x ↔ ∃ c, x = [c] ∧ p c = true := by
  constructor
  · intro h
    cases h with
    | cls hp => exact ⟨_, rfl, hp⟩
  · rintro ⟨c, rfl, hp⟩
    exact .cls hp

theorem lit_iff (c : Char) (x : List Char) : Matches (lit c) x ↔ x = [c] := by
  unfold lit
  rw [cls_iff]
  constructor
  · rintro ⟨d, rfl, hd⟩
    have : d = c := by simpa using hd
    rw [this]
  · rintro rfl
    exact ⟨c, rfl, by simp⟩

theorem opt_iff (a : Regex) (x : List Char) : Matches (opt a) x ↔ (Matches a x ∨ x = []) := by
  unfold opt
  constructor
  · intro h
    rcases h.alt_inv with h | h
    · exact Or.inl h
    · cases h; exact Or.inr rfl
  · rintro (h | rfl)
    · exact .altL h
    · exact .altR .empty

theorem Matches.star_cls_all {p : Char → Bool} {r : Regex} {t : List Char} (h : Matches r t) :
    r = .star (.cls p) → ∀ c ∈ t, p c = true := by
  induction h with
  | empty => intro hr; cases hr
  | cls _ => intro hr; cases hr
  | cat _ _ _ _ => intro hr; cases hr
  | altL _ _ => intro hr; cases hr
  | altR _ _ => intro hr; cases hr
  | starNil => intro _ c hc; cases hc
  | starCons hx _ _ ihy =>
    intro hr c hc
    cases hr
    obtain ⟨d, rfl, hd⟩ := (cls_iff _ _).mp hx
    rcases List.mem_append.mp hc with h1 | h2
    · have : c = d := by simpa using h1
      rw [this]; exact hd
    · exact ihy rfl c h2

theorem star_cls_iff (p : Char → Bool) (x : List Char) :
    Matches (.star (.cls p)) x ↔ ∀ c ∈ x, p c = true := by
  constructor
  · intro h; exact h.star_cls_all rfl
  · intro h
    induction x with
    | nil => exact .starNil
    | cons d x ih =>
      exact Matches.starCons (x := [d]) (.cls (h d (List.mem_cons_self d x)))
        (ih (fun c hc => h c (List.mem_cons_of_mem d hc)))

theorem plus_cls_iff (p : Char → Bool) (x : List Char) :
    Matches (plus (.cls p)) x ↔ (x ≠ [] ∧ ∀ c ∈ x, p c = true) := by
  unfold plus
  constructor
  · intro h
    obtain ⟨u, v, rfl, hu, hv⟩ := h.cat_inv
    obtain ⟨d, rfl, hd⟩ := (cls_iff _ _).mp hu
    refine ⟨by simp, ?_⟩
    intro c hc
    rcases List.mem_append.mp hc with h1 | h2
    · have : c = d := by simpa using h1
      rw [this]; exact hd
    · exact (star_cls_iff p v).mp hv c h2
  · rintro ⟨hne, hall⟩
    cases x with
    | nil => exact absurd rfl hne
    | cons d x =>
      exact Matches.cat (x := [d]) (.cls (hall d (List.mem_cons_self d x)))
        ((star_cls_iff p x).mpr (fun c hc => hall c (List.mem_cons_of_mem d hc)))

theorem rep24_iff (p : Char → Bool) (x : List Char) :
    Matches (rep24 p) x ↔ (2 ≤ x.length ∧ x.length ≤ 4 ∧ ∀ c ∈ x, p c = true) := by
  unfold rep24
  constructor
  · intro h
    obtain ⟨u1, v1, rfl, hu1, hv1⟩ := h.cat_inv
    obtain ⟨c1, rfl, hc1⟩ := (cls_iff _ _).mp hu1
    obtain ⟨u2, v2, rfl, hu2, hv2⟩ := hv1.cat_inv
    obtain ⟨c2, rfl, hc2⟩ := (cls_iff _ _).mp hu2
    rcases (opt_iff _ _).mp hv2 with h3 | rfl
    · obtain ⟨u3, v3, rfl, hu3, hv3⟩ := h3.cat_inv
      obtain ⟨c3, rfl, hc3⟩ := (cls_iff _ _).mp hu3
      rcases (opt_iff _ _).mp hv3 with h4 | rfl
      · obtain ⟨c4, rfl, hc4⟩ := (cls_iff _ _).mp h4
        refine ⟨by simp, by simp, ?_⟩
        intro c hc
        simp only [List.cons_append, List.nil_append, List.mem_cons, List.mem_singleton,
          List.not_mem_nil, or_false] at hc
        rcases hc with rfl | rfl | rfl | rfl <;> assumption
      · refine ⟨by simp, by simp, ?_⟩
        intro c hc
        simp only [List.cons_append, List.nil_append, List.mem_cons, List.mem_singleton,
          List.not_mem_nil, or_false, List.append_nil] at hc
        rcases hc with rfl | rfl | rfl <;> assumption
    · refine ⟨by simp, by simp, ?_⟩
      intro c hc
      simp only [List.cons_append, List.nil_append, List.mem_cons, List.mem_singleton,
        List.not_mem_nil, or_false, List.append_nil] at hc
      rcases hc with rfl | rfl <;> assumption
  · rintro ⟨h2, h4, hall⟩
    match x, h2, h4, hall with
    | [c1, c2], _, _, hall =>
      exact Matches.cat (x := [c1]) (.cls (hall c1 (by simp)))
        (Matches.cat (x := [c2]) (y := []) (.cls (hall c2 (by simp))) ((opt_iff _ _).mpr (Or.inr rfl)))
    | [c1, c2, c3], _, _, hall =>
      exact Matches.cat (x := [c1]) (.cls (hall c1 (by simp)))
        (Matches.cat (x := [c2]) (y := [c3]) (.cls (hall c2 (by simp)))
          ((opt_iff _ _).mpr (Or.inl
            (Matches.cat (x := [c3]) (y := []) (.cls (hall c3 (by simp)))
              ((opt_iff _ _).mpr (Or.inr rfl))))))
    | [c1, c2, c3, c4], _, _, hall =>
      exact Matches.cat (x := [c1]) (.cls (hall c1 (by simp)))
        (Matches.cat (x := [c2]) (y := [c3, c4]) (.cls (hall c2 (by simp)))
          ((opt_iff _ _).mpr (Or.inl
            (Matches.cat (x := [c3]) (y := [c4]) (.cls (hall c3 (by simp)))
              ((opt_iff _ _).mpr (Or.inl (.cls (hall c4 (by simp)))))))))
    | [], h2, _, _ => simp at h2
    | [_], h2, _, _ => simp at h2
    | _ :: _ :: _ :: _ :: _ :: _, _, h4, _ => simp at h4

end Regex

theorem emailRegex_iff (cs : List Char) : Regex.Matches emailRegex cs ↔ EmailShape cs := by
  unfold emailRegex EmailShape
  constructor
  · intro h
    obtain ⟨loc, r1, rfl, hloc, h1⟩ := h.cat_inv
    obtain ⟨at1, r2, rfl, hat, h2⟩ := h1.cat_inv
    obtain ⟨dom, r3, rfl, hdom, h3⟩ := h2.cat_inv
    obtain ⟨dot, tld, rfl, hdot, htld⟩ := h3.cat_inv
    rw [Regex.lit_iff] at hat hdot
    subst hat; subst hdot
    obtain ⟨hl1, hl2⟩ := (Regex.plus_cls_iff _ _).mp hloc
    obtain ⟨hd1, hd2⟩ := (Regex.plus_cls_iff _ _).mp hdom
    obtain ⟨ht1, ht2, ht3⟩ := (Regex.rep24_iff _ _).mp htld
    exact ⟨loc, dom, tld, by simp, hl1, hl2, hd1, hd2, ht1, ht2, ht3⟩
  · rintro ⟨loc, dom, tld, rfl, hl1, hl2, hd1, hd2, ht1, ht2, ht3⟩
    exact Regex.Matches.cat ((Regex.plus_cls_iff _ _).mpr ⟨hl1, hl2⟩)
      (Regex.Matches.cat (x := ['@']) ((Regex.lit_iff _ _).mpr rfl)
        (Regex.Matches.cat ((Regex.plus_cls_iff _ _).mpr ⟨hd1, hd2⟩)
          (Regex.Matches.cat (x := ['.']) ((Regex.lit_iff _ _).mpr rfl)
            ((Regex.rep24_iff _ _).mpr ⟨ht1, ht2, ht3⟩))))

theorem IsEmailValid_iff (s : String) :
    IsEmailValid s = true ↔ (3 ≤ len s ∧ len s ≤ 254 ∧ EmailShape s.data) := by
  unfold IsEmailValid MatchString
  rw [← emailRegex_iff, ← Regex.matchRunes_iff]
  cases h3 : emailRegex.matchRunes s.data
  · simp
  · by_cases h1 : len s < 3
    · simp [h1]
    · by_cases h2 : len s > 254
      · simp [h1, h2]
      · simp [h1, h2]
        omega

theorem len_pos_of_ne_empty (s : String) (h : s ≠ "") : 0 < len s := by
  unfold len
  obtain ⟨l⟩ := s
  cases l with
  | nil => exact absurd rfl h
  | cons c cs =>
    simp [String.utf8ByteSize, String.utf8ByteSize.go]
    have := Char.utf8Size_pos c
    omega

theorem len_empty : len "" = 0 := rfl

theorem IsEmailValid_ne_empty (s : String) (h : IsEmailValid s = true) : s ≠ "" := by
  intro hs
  have h3 := ((IsEmailValid_iff s).mp h).1
  rw [hs, len_empty] at h3
  exact absurd h3 (by decide)

theorem takeWhile_append_stop (p : Char → Bool) (d : Char) (rest : List Char) :
    ∀ l : List Char, (∀ c ∈ l, p c = true) → p d = false →
      (l ++ d :: rest).takeWhile p = l
  | [], _, hd => by simp [List.takeWhile, hd]
  | c :: l, hl, hd => by
    have hc : p c = true := hl c (List.mem_cons_self c l)
    have ih := takeWhile_append_stop p d rest l
      (fun x hx => hl x (List.mem_cons_of_mem c hx)) hd
    simp [List.takeWhile, hc, ih]

theorem afterLastDot_append (pre tld : List Char) (h : ∀ c ∈ tld, isAlpha c = true) :
    afterLastDot (pre ++ '.' :: tld) = tld := by
  unfold afterLastDot
  have hrev : (pre ++ '.' :: tld).reverse = tld.reverse ++ '.' :: pre.reverse := by simp
  rw [hrev, takeWhile_append_stop (fun c => c != '.') '.' pre.reverse tld.reverse _ (by simp)]
  · simp
  · intro c hc
    have hc1 : isAlpha c = true := h c (List.mem_reverse.mp hc)
    have hdot : isAlpha '.' = false := by decide
    by_cases hcd : c = '.'
    · rw [hcd, hdot] at hc1
      exact absurd hc1 (by decide)
    · simpa using hcd

theorem afterLastDot_of_valid (s : String) (h : IsEmailValid s = true) :
    2 ≤ (afterLastDot s.data).length ∧ (afterLastDot s.data).length ≤ 4 ∧
      ∀ c ∈ afterLastDot s.data, isAlpha c = true := by
  obtain ⟨_, _, loc, dom, tld, hs, _, _, _, _, h2, h4, hall⟩ := (IsEmailValid_iff s).mp h
  have hs1 : s.data = (loc ++ '@' :: dom) ++ '.' :: tld := by rw [hs]; simp
  rw [hs1, afterLastDot_append _ _ hall]
  exact ⟨h2, h4, hall⟩

/-- C1: `IsEmailValid s` is true exactly when the byte length of `s` lies between 3 and
254 and the whole of `s` has the shape local part, at sign, domain, dot, two to four
letters; every string shorter than 3 or longer than 254 bytes is rejected; and the three
sample addresses of the specification evaluate as it says. -/
theorem IsEmailValid_spec :
    (∀ s : String,
      IsEmailValid s = true ↔ (3 ≤ len s ∧ len s ≤ 254 ∧ EmailShape s.data)) ∧
    (∀ s : String, (len s < 3 ∨ 254 < len s) → IsEmailValid s = false) ∧
    IsEmailValid "a@b.co" = true ∧
    IsEmailValid "a@b.a" = false ∧
    IsEmailValid "no-at-sign.com" = false := by
  refine ⟨IsEmailValid_iff, ?_, by decide, by decide, by decide⟩
  intro s hs
  cases h : IsEmailValid s
  · rfl
  · have := (IsEmailValid_iff s).mp h
    omega

/-- An instance of C1 at a two-byte string. -/
theorem IsEmailValid_spec_witness : IsEmailValid "ab" = false :=
  IsEmailValid_spec.2.1 "ab" (Or.inl (by decide))

/-- C9: in every accepted string the part after the last dot is two to four letters, so
a string whose last dot-separated segment is longer than four runes is rejected (as is
`user@example.museum`), while `a@..co` and `a@-.co`, whose domains are malformed, are
accepted. -/
theorem IsEmailValid_last_segment :
    (∀ s : String, IsEmailValid s = true →
      2 ≤ (afterLastDot s.data).length ∧ (afterLastDot s.data).length ≤ 4 ∧
        ∀ c ∈ afterLastDot s.data, isAlpha c = true) ∧
    (∀ s : String, 4 < (afterLastDot s.data).length → IsEmailValid s = false) ∧
    IsEmailValid "user@example.museum" = false ∧
    IsEmailValid "a@..co" = true ∧
    IsEmailValid "a@-.co" = true := by
  refine ⟨afterLastDot_of_valid, ?_, by decide, by decide, by decide⟩
  intro s hs
  cases h : IsEmailValid s
  · rfl
  · have := afterLastDot_of_valid s h
    omega

/-- An instance of C9 at an accepted address and at one with a six-letter last segment. -/
theorem IsEmailValid_last_segment_witness :
    afterLastDot "a@b.co".data = ['c', 'o'] ∧ IsEmailValid "x@y.museum" = false :=
  ⟨by decide, IsEmailValid_last_segment.2.1 "x@y.museum" (by decide)⟩

end validators

/-! ## The record service -/

namespace user

open validators

theorem lookup_filter_ne (k : String) : ∀ (t : Table) (k' : String),
    (t.filter (fun e => e.1 != k)).lookup k' = if k' = k then none else t.lookup k'
  | [], k' => by simp
  | (a, m) :: t, k' => by
    have ih := lookup_filter_ne k t k'
    by_cases hak : a = k
    · subst hak
      by_cases hk : k' = a
      · subst hk
        simp [List.filter, ih]
      · have hb : (k' == a) = false := by simpa using hk
        simp [List.filter, ih, hk, List.lookup, hb]
    · have hne : (a != k) = true := by simpa using hak
      by_cases hk : k' = k
      · subst hk
        have hb : (k' == a) = false := by
          simp only [beq_eq_false_iff_ne, ne_eq]
          exact fun h => hak h.symm
        simp [List.filter, hne, List.lookup, hb, ih]
      · by_cases hka : k' = a
        · subst hka
          simp [List.filter, List.lookup, hk, hne]
        · have hb : (k' == a) = false := by simpa using hka
          simp [List.filter, hne, List.lookup, hb, ih, hk]

theorem lookup_put (t : Table) (m : Item) (k : String) :
    (t.put m).lookup k = if k = keyOf m then some m else t.lookup k := by
  unfold Table.put
  by_cases hk : k = keyOf m
  · subst hk
    simp [List.lookup]
  · have hb : (k == keyOf m) = false := by simpa using hk
    simp [List.lookup, hb, hk, lookup_filter_ne]

theorem lookup_delete (t : Table) (k k' : String) :
    (t.delete k).lookup k' = if k' = k then none else t.lookup k' := by
  unfold Table.delete
  exact lookup_filter_ne k t k'

theorem delete_absent (k : String) : ∀ t : Table, t.lookup k = none → t.delete k = t
  | [], _ => rfl
  | (a, m) :: t, h => by
    by_cases hka : k = a
    · subst hka
      simp [List.lookup] at h
    · have hb : (k == a) = false := by simpa using hka
      have h1 : t.lookup k = none := by simpa [List.lookup, hb] using h
      have ih := delete_absent k t h1
      have hne : (a != k) = true := by
        simp only [bne_iff_ne, ne_eq]
        exact fun h => hka h.symm
      unfold Table.delete at ih ⊢
      simp [List.filter, hne, ih]

theorem keyOf_key (e : String) : keyOf [("email", AttributeValue.S e)] = e := by
  simp [keyOf, List.lookup]

theorem keyOf_userItem (u : User) : keyOf (userItem u) = u.Email := by
  unfold keyOf userItem encodeString
  by_cases h : u.Email = ""
  · simp [List.lookup, h]
  · simp [List.lookup, h]

theorem MarshalMap_eq (u : User) : MarshalMap u = some (userItem u) := rfl

theorem decodeString_encodeString (s : String) : decodeString (encodeString s) = some s := by
  unfold encodeString
  by_cases h : s = ""
  · simp [h, decodeString]
  · simp [h, decodeString]

theorem fieldByName_email : fieldByName "email" = some .Email := by decide

theorem fieldByName_firstName : fieldByName "firstName" = some .FirstName := by decide

theorem fieldByName_lastName : fieldByName "lastName" = some .LastName := by decide

theorem UnmarshalMap_userItem (u : User) : UnmarshalMap (userItem u) = some u := by
  simp [UnmarshalMap, userItem, decodeAttribute, fieldByName_email, fieldByName_firstName,
    fieldByName_lastName, decodeString_encodeString, Field.set]

theorem UnmarshalMap_nil : UnmarshalMap [] = some ⟨"", "", ""⟩ := rfl

theorem CreateUser_of_decode_error {σ : Type} (unmarshal : String → Option User)
    (req : APIGatewayProxyRequest) (tn : String) (c : DynamoDBAPI σ) (st : σ)
    (hd : unmarshal req.Body = none) :
    CreateUser unmarshal req tn c st = (.error .ErrorInvalidUserData, st) := by
  unfold CreateUser
  rw [hd]

theorem CreateUser_of_invalid_email {σ : Type} (unmarshal : String → Option User)
    (req : APIGatewayProxyRequest) (tn : String) (c : DynamoDBAPI σ) (st : σ) (u : User)
    (hd : unmarshal req.Body = some u) (hv : IsEmailValid u.Email = false) :
    CreateUser unmarshal req tn c st = (.error .ErrorInvalidEmail, st) := by
  unfold CreateUser
  rw [hd]
  simp [hv]

theorem FetchUser_mapClient (f : Faults) (e tn : String) (st : Store) :
    FetchUser e tn (mapClient f) st =
      ((if f.GetItem then Except.error Error.ErrorFailedToFetchRecord
        else match UnmarshalMap (st.table.get e) with
          | none => Except.error Error.ErrorFailedToFetchRecord
          | some item => Except.ok item), afterGet st e tn) := by
  unfold FetchUser mapClient afterGet
  cases hf : f.GetItem
  · simp only [keyOf_key, Bool.false_eq_true, if_false]
    cases UnmarshalMap (st.table.get e) <;> rfl
  · simp

theorem CreateUser_mapClient (unmarshal : String → Option User) (req : APIGatewayProxyRequest)
    (tn : String) (f : Faults) (st : Store) (u : User)
    (hd : unmarshal req.Body = some u) (hv : IsEmailValid u.Email = true) :
    CreateUser unmarshal req tn (mapClient f) st =
      if existsUser f st.table u.Email then
        (.error .ErrorUserAlreadyExists, afterGet st u.Email tn)
      else if f.PutItem then
        (.error .ErrorCouldNotDynamoPutItem,
          ⟨st.table, (afterGet st u.Email tn).calls ++ [.PutItem ⟨userItem u, tn⟩]⟩)
      else
        (.ok u,
          ⟨st.table.put (userItem u),
            (afterGet st u.Email tn).calls ++ [.PutItem ⟨userItem u, tn⟩]⟩) := by
  unfold CreateUser
  rw [hd]
  simp only [hv, FetchUser_mapClient, MarshalMap_eq, existsUser]
  obtain ⟨g, p, d⟩ := f
  cases g <;> cases p <;> simp [Except.toOption, mapClient, afterGet] <;>
    (generalize UnmarshalMap (st.table.get u.Email) = x
     cases x <;> simp)

theorem UpdateUser_mapClient (unmarshal : String → Option User) (req : APIGatewayProxyRequest)
    (tn : String) (f : Faults) (st : Store) (u : User) (hd : unmarshal req.Body = some u) :
    UpdateUser unmarshal req tn (mapClient f) st =
      if existsUser f st.table u.Email then
        (if f.PutItem then
          (.error .ErrorCouldNotDynamoPutItem,
            ⟨st.table, (afterGet st u.Email tn).calls ++ [.PutItem ⟨userItem u, tn⟩]⟩)
        else
          (.ok u,
            ⟨st.table.put (userItem u),
              (afterGet st u.Email tn).calls ++ [.PutItem ⟨userItem u, tn⟩]⟩))
      else
        (.error .ErrorUserDoesNotExist, afterGet st u.Email tn) := by
  unfold UpdateUser
  rw [hd]
  simp only [FetchUser_mapClient, MarshalMap_eq, existsUser]
  obtain ⟨g, p, d⟩ := f
  cases g <;> cases p <;> simp [Except.toOption, mapClient, afterGet] <;>
    (generalize UnmarshalMap (st.table.get u.Email) = x
     cases x with
     | none => simp
     | some cu =>
       by_cases hl : len cu.Email = 0
       · simp [hl]
       · have hpos : 0 < len cu.Email := Nat.pos_of_ne_zero hl
         simp [hl, hpos])

theorem DeleteUser_mapClient (req : APIGatewayProxyRequest) (tn : String) (f : Faults)
    (st : Store) :
    DeleteUser req tn (mapClient f) st =
      if f.DeleteItem then
        (some .ErrorCouldNotDeleteItem,
          ⟨st.table,
            st.calls ++ [.DeleteItem ⟨[("email", .S (pathParameter req "email"))], tn⟩]⟩)
      else
        (none,
          ⟨st.table.delete (pathParameter req "email"),
            st.calls ++ [.DeleteItem ⟨[("email", .S (pathParameter req "email"))], tn⟩]⟩) := by
  unfold DeleteUser mapClient
  obtain ⟨g, p, d⟩ := f
  cases d <;> simp [keyOf_key]

theorem CreateUser_ok_inv (unmarshal : String → Option User) (req : APIGatewayProxyRequest)
    (tn : String) (f : Faults) (st st1 : Store) (r : User)
    (h : CreateUser unmarshal req tn (mapClient f) st = (.ok r, st1)) :
    unmarshal req.Body = some r ∧ IsEmailValid r.Email = true ∧
      existsUser f st.table r.Email = false ∧ f.PutItem = false ∧
      st1 = ⟨st.table.put (userItem r),
        (afterGet st r.Email tn).calls ++ [.PutItem ⟨userItem r, tn⟩]⟩ := by
  cases hd : unmarshal req.Body with
  | none =>
    rw [CreateUser_of_decode_error unmarshal req tn (mapClient f) st hd] at h
    simp at h
  | some u =>
    cases hv : IsEmailValid u.Email with
    | false =>
      rw [CreateUser_of_invalid_email unmarshal req tn (mapClient f) st u hd hv] at h
      simp at h
    | true =>
      rw [CreateUser_mapClient unmarshal req tn f st u hd hv] at h
      cases he : existsUser f st.table u.Email with
      | true => simp [he] at h
      | false =>
        cases hp : f.PutItem with
        | true => simp [he, hp] at h
        | false =>
          simp only [he, hp, Bool.false_eq_true, if_false, Prod.mk.injEq, Except.ok.injEq] at h
          obtain ⟨hr, hst⟩ := h
          subst hr
          exact ⟨rfl, hv, he, rfl, hst.symm⟩

theorem get_put_self (t : Table) (u : User) : (t.put (userItem u)).get u.Email = userItem u := by
  unfold Table.get
  rw [lookup_put, keyOf_userItem]
  simp

theorem existsUser_after_put (f : Faults) (hg : f.GetItem = false) (t : Table) (u : User)
    (hv : IsEmailValid u.Email = true) :
    existsUser f (t.put (userItem u)) u.Email = true := by
  unfold existsUser
  rw [get_put_self, UnmarshalMap_userItem, hg]
  have hpos : 0 < len u.Email := len_pos_of_ne_empty _ (IsEmailValid_ne_empty _ hv)
  simp [hpos]

/-- C2: over the map store whose calls succeed, once `CreateUser` has succeeded on a body,
a second `CreateUser` on any body that decodes to the same email, run on the resulting
store, returns `ErrorUserAlreadyExists`; the table is the same afterwards and the only
call issued is the lookup of the existence check (no put). -/
theorem CreateUser_twice (unmarshal : String → Option User)
    (req1 req2 : APIGatewayProxyRequest) (tn : String) (st st1 : Store) (u1 u2 r : User)
    (hd1 : unmarshal req1.Body = some u1) (hv : IsEmailValid u1.Email = true)
    (hc : CreateUser unmarshal req1 tn (mapClient noFaults) st = (.ok r, st1))
    (hd2 : unmarshal req2.Body = some u2) (he : u2.Email = u1.Email) :
    CreateUser unmarshal req2 tn (mapClient noFaults) st1 =
      (.error .ErrorUserAlreadyExists,
        ⟨st1.table, st1.calls ++ [.GetItem ⟨[("email", .S u2.Email)], tn⟩]⟩) := by
  obtain ⟨hd, _, _, _, hst⟩ := CreateUser_ok_inv unmarshal req1 tn noFaults st st1 r hc
  have hr : r = u1 := by
    rw [hd1] at hd
    exact (Option.some.inj hd).symm
  subst hr
  have hv2 : IsEmailValid u2.Email = true := by rw [he]; exact hv
  rw [CreateUser_mapClient unmarshal req2 tn noFaults st1 u2 hd2 hv2]
  have hex : existsUser noFaults st1.table u2.Email = true := by
    rw [hst, he]
    exact existsUser_after_put noFaults rfl st.table r hv
  rw [if_pos hex]
  rfl

/-- C3: over the map store whose calls succeed, when `CreateUser` succeeds and returns
record `r`, `FetchUser` of `r.Email` on the resulting store succeeds and returns `r`
itself, all three fields included (an empty first or last name comes back empty). -/
theorem CreateUser_FetchUser_roundtrip (unmarshal : String → Option User)
    (req : APIGatewayProxyRequest) (tn : String) (st st1 : Store) (r : User)
    (hc : CreateUser unmarshal req tn (mapClient noFaults) st = (.ok r, st1)) :
    (FetchUser r.Email tn (mapClient noFaults) st1).1 = .ok r := by
  obtain ⟨_, _, _, _, hst⟩ := CreateUser_ok_inv unmarshal req tn noFaults st st1 r hc
  rw [FetchUser_mapClient, hst]
  simp only [noFaults, Bool.false_eq_true, if_false]
  rw [get_put_self, UnmarshalMap_userItem]

/-- An instance of C2: Ann is created in the empty store, then a second body with the same
email is refused. -/
theorem CreateUser_twice_witness :
    CreateUser sampleUnmarshal ⟨"\x7b\"email\":\"a@b.co\",\"lastName\":\"Lee\"\x7d", []⟩ "users"
        (mapClient noFaults)
        ⟨[("a@b.co", userItem ⟨"a@b.co", "Ann", ""⟩)],
          [.GetItem ⟨[("email", .S "a@b.co")], "users"⟩,
           .PutItem ⟨userItem ⟨"a@b.co", "Ann", ""⟩, "users"⟩]⟩ =
      (.error .ErrorUserAlreadyExists,
        ⟨[("a@b.co", userItem ⟨"a@b.co", "Ann", ""⟩)],
          [.GetItem ⟨[("email", .S "a@b.co")], "users"⟩,
           .PutItem ⟨userItem ⟨"a@b.co", "Ann", ""⟩, "users"⟩] ++
          [.GetItem ⟨[("email", .S "a@b.co")], "users"⟩]⟩) :=
  CreateUser_twice sampleUnmarshal
    ⟨"\x7b\"email\":\"a@b.co\",\"firstName\":\"Ann\"\x7d", []⟩
    ⟨"\x7b\"email\":\"a@b.co\",\"lastName\":\"Lee\"\x7d", []⟩ "users" ⟨[], []⟩
    ⟨[("a@b.co", userItem ⟨"a@b.co", "Ann", ""⟩)],
      [.GetItem ⟨[("email", .S "a@b.co")], "users"⟩,
       .PutItem ⟨userItem ⟨"a@b.co", "Ann", ""⟩, "users"⟩]⟩
    ⟨"a@b.co", "Ann", ""⟩ ⟨"a@b.co", "", "Lee"⟩ ⟨"a@b.co", "Ann", ""⟩
    (by decide) (by decide) rfl (by decide) (by decide)

/-- An instance of C3: a record with an empty last name is created and read back. -/
theorem CreateUser_FetchUser_roundtrip_witness :
    (FetchUser "a@b.co" "users" (mapClient noFaults)
        ⟨[("a@b.co", userItem ⟨"a@b.co", "Ann", ""⟩)],
          [.GetItem ⟨[("email", .S "a@b.co")], "users"⟩,
           .PutItem ⟨userItem ⟨"a@b.co", "Ann", ""⟩, "users"⟩]⟩).1 =
      .ok ⟨"a@b.co", "Ann", ""⟩ :=
  CreateUser_FetchUser_roundtrip sampleUnmarshal
    ⟨"\x7b\"email\":\"a@b.co\",\"firstName\":\"Ann\"\x7d", []⟩ "users" ⟨[], []⟩
    ⟨[("a@b.co", userItem ⟨"a@b.co", "Ann", ""⟩)],
      [.GetItem ⟨[("email", .S "a@b.co")], "users"⟩,
       .PutItem ⟨userItem ⟨"a@b.co", "Ann", ""⟩, "users"⟩]⟩
    ⟨"a@b.co", "Ann", ""⟩ rfl

/-- C4: `CreateUser` rejects bad input before it touches the store.  For every client,
whatever its state and whatever its calls would do, a body that does not decode yields
`ErrorInvalidUserData` and a body whose decoded email is not valid (such as
`not-an-email`) yields `ErrorInvalidEmail`; in both cases the client state that comes
back is the one that went in, so no call at all was issued. -/
theorem CreateUser_rejects_before_store {σ : Type} (unmarshal : String → Option User)
    (req : APIGatewayProxyRequest) (tn : String) (c : DynamoDBAPI σ) (st : σ) :
    (unmarshal req.Body = none →
      CreateUser unmarshal req tn c st = (.error .ErrorInvalidUserData, st)) ∧
    (∀ u, unmarshal req.Body = some u → IsEmailValid u.Email = false →
      CreateUser unmarshal req tn c st = (.error .ErrorInvalidEmail, st)) ∧
    IsEmailValid "not-an-email" = false := by
  exact ⟨CreateUser_of_decode_error unmarshal req tn c st,
    CreateUser_of_invalid_email unmarshal req tn c st, by decide⟩

/-- An instance of C4: on a store that already files a record and whose calls would all
fail, an undecodable body and the body with email `not-an-email` are both refused with
the store and its call log untouched. -/
theorem CreateUser_rejects_before_store_witness :
    CreateUser sampleUnmarshal ⟨"not json", []⟩ "users" (mapClient ⟨true, true, true⟩)
        ⟨[("not-an-email", userItem ⟨"not-an-email", "Ann", ""⟩)], []⟩ =
      (.error .ErrorInvalidUserData,
        ⟨[("not-an-email", userItem ⟨"not-an-email", "Ann", ""⟩)], []⟩) ∧
    CreateUser sampleUnmarshal ⟨"\x7b\"email\":\"not-an-email\"\x7d", []⟩ "users"
        (mapClient ⟨true, true, true⟩)
        ⟨[("not-an-email", userItem ⟨"not-an-email", "Ann", ""⟩)], []⟩ =
      (.error .ErrorInvalidEmail,
        ⟨[("not-an-email", userItem ⟨"not-an-email", "Ann", ""⟩)], []⟩) :=
  ⟨(CreateUser_rejects_before_store sampleUnmarshal ⟨"not json", []⟩ "users"
      (mapClient ⟨true, true, true⟩)
      ⟨[("not-an-email", userItem ⟨"not-an-email", "Ann", ""⟩)], []⟩).1 (by decide),
   (CreateUser_rejects_before_store sampleUnmarshal
      ⟨"\x7b\"email\":\"not-an-email\"\x7d", []⟩ "users" (mapClient ⟨true, true, true⟩)
      ⟨[("not-an-email", userItem ⟨"not-an-email", "Ann", ""⟩)], []⟩).2.1
      ⟨"not-an-email", "", ""⟩ (by decide) (by decide)⟩

theorem existsUser_absent (f : Faults) (t : Table) (e : String) (h : t.lookup e = none) :
    existsUser f t e = false := by
  unfold existsUser Table.get
  rw [h]
  simp [UnmarshalMap_nil, len_empty]

/-- C5: when the decoded email is not a key of the map store, `UpdateUser` returns
`ErrorUserDoesNotExist`; the table is the same afterwards and the only call issued is
the lookup (no put).  Nothing is asked of the email: the handler does not validate it. -/
theorem UpdateUser_absent (unmarshal : String → Option User) (req : APIGatewayProxyRequest)
    (tn : String) (f : Faults) (st : Store) (u : User)
    (hd : unmarshal req.Body = some u) (habs : st.table.lookup u.Email = none) :
    UpdateUser unmarshal req tn (mapClient f) st =
      (.error .ErrorUserDoesNotExist,
        ⟨st.table, st.calls ++ [.GetItem ⟨[("email", .S u.Email)], tn⟩]⟩) := by
  rw [UpdateUser_mapClient unmarshal req tn f st u hd, existsUser_absent f st.table u.Email habs]
  rfl

/-- An instance of C5: an update for `not-an-email`, which is not valid and not stored. -/
theorem UpdateUser_absent_witness :
    UpdateUser sampleUnmarshal ⟨"\x7b\"email\":\"not-an-email\"\x7d", []⟩ "users"
        (mapClient noFaults) ⟨[("a@b.co", userItem ⟨"a@b.co", "Ann", ""⟩)], []⟩ =
      (.error .ErrorUserDoesNotExist,
        ⟨[("a@b.co", userItem ⟨"a@b.co", "Ann", ""⟩)],
          [] ++ [.GetItem ⟨[("email", .S "not-an-email")], "users"⟩]⟩) :=
  UpdateUser_absent sampleUnmarshal ⟨"\x7b\"email\":\"not-an-email\"\x7d", []⟩ "users"
    noFaults ⟨[("a@b.co", userItem ⟨"a@b.co", "Ann", ""⟩)], []⟩ ⟨"not-an-email", "", ""⟩
    (by decide) (by decide)

theorem pathParameter_email (req : APIGatewayProxyRequest) (k : String)
    (hk : req.PathParameters.lookup "email" = some k ∨
      (req.PathParameters.lookup "email" = none ∧ k = "")) :
    pathParameter req "email" = k := by
  unfold pathParameter
  rcases hk with h | ⟨h, rfl⟩
  · rw [h]; rfl
  · rw [h]; rfl

/-- C7: `DeleteUser` issues exactly one delete, with no lookup before it, and the key of
that delete is `k`, the value the request's path parameters give for `email` (the empty
string when they give none).  For every client the state it returns is the state after
that one call, and it returns an error exactly when the call failed, the error being
`ErrorCouldNotDeleteItem`.  On the map store the call is logged once; a failed delete
leaves the table alone; a successful delete returns no error, leaves the table unchanged
when `k` is absent, and otherwise removes `k` and no other key. -/
theorem DeleteUser_spec (req : APIGatewayProxyRequest) (tn : String) (k : String)
    (hk : req.PathParameters.lookup "email" = some k ∨
      (req.PathParameters.lookup "email" = none ∧ k = "")) :
    (∀ (σ : Type) (c : DynamoDBAPI σ) (st : σ),
      (DeleteUser req tn c st).2 = (c.DeleteItem ⟨[("email", .S k)], tn⟩ st).2 ∧
      ((DeleteUser req tn c st).1 ≠ none ↔
          (c.DeleteItem ⟨[("email", .S k)], tn⟩ st).1 = none) ∧
      ((DeleteUser req tn c st).1 ≠ none →
          (DeleteUser req tn c st).1 = some .ErrorCouldNotDeleteItem)) ∧
    (∀ (f : Faults) (st : Store),
      (DeleteUser req tn (mapClient f) st).2.calls =
          st.calls ++ [.DeleteItem ⟨[("email", .S k)], tn⟩] ∧
      (f.DeleteItem = true →
          (DeleteUser req tn (mapClient f) st).1 = some .ErrorCouldNotDeleteItem ∧
          (DeleteUser req tn (mapClient f) st).2.table = st.table) ∧
      (f.DeleteItem = false →
          (DeleteUser req tn (mapClient f) st).1 = none ∧
          (st.table.lookup k = none →
            (DeleteUser req tn (mapClient f) st).2.table = st.table) ∧
          (DeleteUser req tn (mapClient f) st).2.table.lookup k = none ∧
          ∀ k1, k1 ≠ k →
            (DeleteUser req tn (mapClient f) st).2.table.lookup k1 = st.table.lookup k1)) := by
  have hp := pathParameter_email req k hk
  constructor
  · intro σ c st
    have hdef : DeleteUser req tn c st =
        match c.DeleteItem ⟨[("email", .S (pathParameter req "email"))], tn⟩ st with
        | (none, st1) => (some .ErrorCouldNotDeleteItem, st1)
        | (some _, st1) => (none, st1) := rfl
    rw [hdef, hp]
    generalize c.DeleteItem ⟨[("email", .S k)], tn⟩ st = out
    obtain ⟨o, st1⟩ := out
    cases o <;> simp
  · intro f st
    rw [DeleteUser_mapClient, hp]
    refine ⟨?_, ?_, ?_⟩
    · cases f.DeleteItem <;> simp
    · intro hf
      simp [hf]
    · intro hf
      simp only [hf, Bool.false_eq_true, if_false, true_and]
      refine ⟨fun habs => delete_absent _ _ habs, ?_, ?_⟩
      · rw [lookup_delete]
        simp
      · intro k1 hk1
        rw [lookup_delete, if_neg hk1]

/-- An instance of C7: of two stored records the one named by the path parameter is
deleted and the other stays; a delete for a key that is not stored succeeds and changes
nothing; a request without the path parameter asks for the empty key. -/
theorem DeleteUser_spec_witness :
    (DeleteUser ⟨"", [("id", "7"), ("email", "a@b.co")]⟩ "users" (mapClient noFaults)
        ⟨[("a@b.co", userItem ⟨"a@b.co", "Ann", ""⟩),
          ("c@d.org", userItem ⟨"c@d.org", "Cy", "Dee"⟩)], []⟩ =
      (none,
        ⟨[("c@d.org", userItem ⟨"c@d.org", "Cy", "Dee"⟩)],
          [.DeleteItem ⟨[("email", .S "a@b.co")], "users"⟩]⟩)) ∧
    (DeleteUser ⟨"", [("id", "7"), ("email", "a@b.co")]⟩ "users" (mapClient noFaults)
        ⟨[("a@b.co", userItem ⟨"a@b.co", "Ann", ""⟩),
          ("c@d.org", userItem ⟨"c@d.org", "Cy", "Dee"⟩)], []⟩).2.table.lookup "a@b.co" =
      none ∧
    (DeleteUser ⟨"", [("id", "7"), ("email", "a@b.co")]⟩ "users" (mapClient noFaults)
        ⟨[("a@b.co", userItem ⟨"a@b.co", "Ann", ""⟩),
          ("c@d.org", userItem ⟨"c@d.org", "Cy", "Dee"⟩)], []⟩).2.table.lookup "c@d.org" =
      some (userItem ⟨"c@d.org", "Cy", "Dee"⟩) ∧
    (DeleteUser ⟨"", [("email", "x@y.org")]⟩ "users" (mapClient noFaults)
        ⟨[("a@b.co", userItem ⟨"a@b.co", "Ann", ""⟩)], []⟩).2.table =
      [("a@b.co", userItem ⟨"a@b.co", "Ann", ""⟩)] ∧
    (DeleteUser ⟨"", []⟩ "users" (mapClient ⟨false, false, true⟩) ⟨[], []⟩).2.calls =
      [] ++ [.DeleteItem ⟨[("email", .S "")], "users"⟩] ∧
    (DeleteUser ⟨"", []⟩ "users" (mapClient ⟨false, false, true⟩) ⟨[], []⟩).1 =
      some .ErrorCouldNotDeleteItem :=
  have h1 := ((DeleteUser_spec ⟨"", [("id", "7"), ("email", "a@b.co")]⟩ "users" "a@b.co"
    (Or.inl (by decide))).2 noFaults
    ⟨[("a@b.co", userItem ⟨"a@b.co", "Ann", ""⟩),
      ("c@d.org", userItem ⟨"c@d.org", "Cy", "Dee"⟩)], []⟩).2.2 rfl
  have h2 := ((DeleteUser_spec ⟨"", [("email", "x@y.org")]⟩ "users" "x@y.org"
    (Or.inl (by decide))).2 noFaults
    ⟨[("a@b.co", userItem ⟨"a@b.co", "Ann", ""⟩)], []⟩).2.2 rfl
  have h3 := (DeleteUser_spec ⟨"", []⟩ "users" "" (Or.inr ⟨by decide, rfl⟩)).2
    ⟨false, false, true⟩ ⟨[], []⟩
  ⟨rfl, h1.2.2.1, h1.2.2.2 "c@d.org" (by decide), h2.2.1 (by decide), h3.1, (h3.2.1 rfl).1⟩

theorem existsUser_get_fails (f : Faults) (hg : f.GetItem = true) (t : Table) (e : String) :
    existsUser f t e = false := by
  unfold existsUser
  simp [hg]

/-- C8: a lookup that fails in the existence check counts as not found.  When the get
call of the map store fails, `CreateUser` on a body with a valid email goes on to the
put, whatever the table holds under that email: it returns the record when the put
succeeds and `ErrorCouldNotDynamoPutItem` when it fails (never
`ErrorFailedToFetchRecord` or `ErrorUserAlreadyExists`); and `UpdateUser` on any body
that decodes returns `ErrorUserDoesNotExist` with the lookup as its only call. -/
theorem get_failure_counts_as_not_found (unmarshal : String → Option User)
    (req : APIGatewayProxyRequest) (tn : String) (f : Faults) (st : Store) (u : User)
    (hd : unmarshal req.Body = some u) (hg : f.GetItem = true) :
    (IsEmailValid u.Email = true →
      CreateUser unmarshal req tn (mapClient f) st =
        if f.PutItem then
          (.error .ErrorCouldNotDynamoPutItem,
            ⟨st.table,
              st.calls ++ [.GetItem ⟨[("email", .S u.Email)], tn⟩] ++
                [.PutItem ⟨userItem u, tn⟩]⟩)
        else
          (.ok u,
            ⟨st.table.put (userItem u),
              st.calls ++ [.GetItem ⟨[("email", .S u.Email)], tn⟩] ++
                [.PutItem ⟨userItem u, tn⟩]⟩)) ∧
    UpdateUser unmarshal req tn (mapClient f) st =
      (.error .ErrorUserDoesNotExist,
        ⟨st.table, st.calls ++ [.GetItem ⟨[("email", .S u.Email)], tn⟩]⟩) := by
  constructor
  · intro hv
    rw [CreateUser_mapClient unmarshal req tn f st u hd hv,
      existsUser_get_fails f hg st.table u.Email]
    rfl
  · rw [UpdateUser_mapClient unmarshal req tn f st u hd,
      existsUser_get_fails f hg st.table u.Email]
    rfl

/-- An instance of C8: with a failing get, a create for an email that is already stored
overwrites the stored record, and an update for it is refused. -/
theorem get_failure_counts_as_not_found_witness :
    CreateUser sampleUnmarshal ⟨"\x7b\"email\":\"a@b.co\",\"lastName\":\"Lee\"\x7d", []⟩ "users"
        (mapClient ⟨true, false, false⟩)
        ⟨[("a@b.co", userItem ⟨"a@b.co", "Ann", "Smith"⟩)], []⟩ =
      (.ok ⟨"a@b.co", "", "Lee"⟩,
        ⟨[("a@b.co", userItem ⟨"a@b.co", "", "Lee"⟩)],
          [.GetItem ⟨[("email", .S "a@b.co")], "users"⟩,
           .PutItem ⟨userItem ⟨"a@b.co", "", "Lee"⟩, "users"⟩]⟩) ∧
    UpdateUser sampleUnmarshal ⟨"\x7b\"email\":\"a@b.co\",\"lastName\":\"Lee\"\x7d", []⟩ "users"
        (mapClient ⟨true, false, false⟩)
        ⟨[("a@b.co", userItem ⟨"a@b.co", "Ann", "Smith"⟩)], []⟩ =
      (.error .ErrorUserDoesNotExist,
        ⟨[("a@b.co", userItem ⟨"a@b.co", "Ann", "Smith"⟩)],
          [.GetItem ⟨[("email", .S "a@b.co")], "users"⟩]⟩) :=
  have h := get_failure_counts_as_not_found sampleUnmarshal
    ⟨"\x7b\"email\":\"a@b.co\",\"lastName\":\"Lee\"\x7d", []⟩ "users" ⟨true, false, false⟩
    ⟨[("a@b.co", userItem ⟨"a@b.co", "Ann", "Smith"⟩)], []⟩ ⟨"a@b.co", "", "Lee"⟩
    (by decide) rfl
  ⟨h.1 (by decide), h.2⟩

theorem StoreInv_put (t : Table) (u : User) (hinv : StoreInv t)
    (hv : IsEmailValid u.Email = true) : StoreInv (t.put (userItem u)) := by
  intro k m hk
  rw [lookup_put, keyOf_userItem] at hk
  by_cases hku : k = u.Email
  · rw [if_pos hku] at hk
    have hm : m = userItem u := (Option.some.inj hk).symm
    subst hm
    subst hku
    exact ⟨hv, u, UnmarshalMap_userItem u, rfl⟩
  · rw [if_neg hku] at hk
    exact hinv k m hk

theorem StoreInv_delete (t : Table) (k0 : String) (hinv : StoreInv t) :
    StoreInv (t.delete k0) := by
  intro k m hk
  rw [lookup_delete] at hk
  by_cases hkk : k = k0
  · rw [if_pos hkk] at hk
    cases hk
  · rw [if_neg hkk] at hk
    exact hinv k m hk

theorem existsUser_key (f : Faults) (t : Table) (e : String) (h : existsUser f t e = true) :
    ∃ m, t.lookup e = some m := by
  cases hl : t.lookup e with
  | none => rw [existsUser_absent f t e hl] at h; cases h
  | some m => exact ⟨m, rfl⟩

theorem StoreInv_CreateUser (unmarshal : String → Option User) (req : APIGatewayProxyRequest)
    (tn : String) (f : Faults) (st : Store) (hinv : StoreInv st.table) :
    StoreInv (CreateUser unmarshal req tn (mapClient f) st).2.table := by
  cases hd : unmarshal req.Body with
  | none =>
    rw [CreateUser_of_decode_error unmarshal req tn (mapClient f) st hd]
    exact hinv
  | some u =>
    cases hv : IsEmailValid u.Email with
    | false =>
      rw [CreateUser_of_invalid_email unmarshal req tn (mapClient f) st u hd hv]
      exact hinv
    | true =>
      rw [CreateUser_mapClient unmarshal req tn f st u hd hv]
      cases existsUser f st.table u.Email
      · cases f.PutItem
        · exact StoreInv_put st.table u hinv hv
        · exact hinv
      · exact hinv

theorem StoreInv_UpdateUser (unmarshal : String → Option User) (req : APIGatewayProxyRequest)
    (tn : String) (f : Faults) (st : Store) (hinv : StoreInv st.table) :
    StoreInv (UpdateUser unmarshal req tn (mapClient f) st).2.table := by
  cases hd : unmarshal req.Body with
  | none =>
    unfold UpdateUser
    rw [hd]
    exact hinv
  | some u =>
    rw [UpdateUser_mapClient unmarshal req tn f st u hd]
    cases hex : existsUser f st.table u.Email with
    | false => exact hinv
    | true =>
      obtain ⟨m, hm⟩ := existsUser_key f st.table u.Email hex
      have hv : IsEmailValid u.Email = true := (hinv u.Email m hm).1
      cases f.PutItem
      · exact StoreInv_put st.table u hinv hv
      · exact hinv

theorem StoreInv_DeleteUser (req : APIGatewayProxyRequest) (tn : String) (f : Faults)
    (st : Store) (hinv : StoreInv st.table) :
    StoreInv (DeleteUser req tn (mapClient f) st).2.table := by
  rw [DeleteUser_mapClient]
  cases f.DeleteItem
  · exact StoreInv_delete st.table _ hinv
  · exact hinv

theorem StoreInv_run (unmarshal : String → Option User) (tn : String) (op : Op) (st : Store)
    (hinv : StoreInv st.table) : StoreInv (op.run unmarshal tn st).table := by
  cases op with
  | create req f => exact StoreInv_CreateUser unmarshal req tn f st hinv
  | update req f => exact StoreInv_UpdateUser unmarshal req tn f st hinv
  | delete req f => exact StoreInv_DeleteUser req tn f st hinv

/-- C10: the store invariant (every key is a valid email and files a record with that
email) is preserved by every `CreateUser`, `UpdateUser` and `DeleteUser` call on the map
store, for every request and every outcome of the get, put and delete calls; so it holds
in every store reachable from the empty one, although `UpdateUser` validates nothing. -/
theorem StoreInv_preserved (unmarshal : String → Option User) (tn : String) :
    (∀ (op : Op) (st : Store), StoreInv st.table → StoreInv (op.run unmarshal tn st).table) ∧
    (∀ st : Store, Reachable unmarshal tn st → StoreInv st.table) := by
  refine ⟨StoreInv_run unmarshal tn, ?_⟩
  intro st hr
  induction hr with
  | init =>
    intro k m hk
    cases hk
  | step op _ ih => exact StoreInv_run unmarshal tn op _ ih

/-- An instance of C10: after a create, an update without a first name and a delete of
another key, started from the empty store, every key is still a valid email. -/
theorem StoreInv_preserved_witness :
    StoreInv
      ((Op.delete ⟨"", [("email", "x@y.org")]⟩ noFaults).run sampleUnmarshal "users"
        ((Op.update ⟨"\x7b\"email\":\"a@b.co\",\"lastName\":\"Lee\"\x7d", []⟩ noFaults).run
          sampleUnmarshal "users"
          ((Op.create ⟨"\x7b\"email\":\"a@b.co\",\"firstName\":\"Ann\"\x7d", []⟩ noFaults).run
            sampleUnmarshal "users" ⟨[], []⟩))).table :=
  (StoreInv_preserved sampleUnmarshal "users").2 _
    (Reachable.step _ (Reachable.step _ (Reachable.step _ Reachable.init)))

end user
